import Mathlib

/-!
# EdgeVPN address allocator (pkg/vpn/dhcp.go) and sealer contract

A shallow embedding of `checkDHCPLease`, `contains` and `DHCPNetworkService`
from `pkg/vpn/dhcp.go`.  The service talks to a ledger, a liveness view, the
local file system, a channel and a subnet gate; every such interaction is
recorded as an `Event`, so that statements of the form "the iteration makes no
Persist call" become statements about the event list of a run.

Functions of packages the service imports but whose code is not part of this
development
(`utils.Leader`, `utils.NextIP`, `crypto.MD5`, `filepath.Join`,
`node.BlockSubnet`) are taken as parameters, bundled in `Deps`.
-/

namespace EdgeVPN

/-! ## Definitions: the address allocator -/

/-- The entry shape `types.Machine`: a peer and the address it uses. -/
structure Machine where
  PeerID : String
  Address : String
deriving DecidableEq, Repr

/-- A ledger entry (`blockchain.Data`).  Only what the allocator can decode out
of it matters: a machine record, a plain string, or something else. -/
inductive Data where
  | machine (m : Machine)
  | str (s : String)
  | junk
deriving DecidableEq, Repr

/-- The value of `m` after `var m types.Machine; t.Unmarshal(&m)`: the error of
`Unmarshal` is dropped by the caller, a failed decode leaves the zero value. -/
def Data.unmarshalMachine : Data → Machine
  | .machine m => m
  | _ => ⟨"", ""⟩

/-- The value of `lead` after `var lead string; v.Unmarshal(&lead)`. -/
def Data.unmarshalString : Data → String
  | .str s => s
  | _ => ""

/-- The storage of a block: ledger key ↦ entry key ↦ entry.  The inner list is
in the order in which `range` visits the Go map. -/
abbrev Storage := List (String × List (String × Data))

/-- The expression `b.LastBlock().Storage[key]`; a missing key is the nil map. -/
def Storage.bucket (s : Storage) (key : String) : List (String × Data) :=
  (s.lookup key).getD []

/-- The call `b.GetKey(ledgerKey, entryKey)`: `some v` when `exists` is true. -/
def Storage.getKey (s : Storage) (ledgerKey entryKey : String) : Option Data :=
  (s.lookup ledgerKey).bind (fun bucket => bucket.lookup entryKey)

/-- What one pass of the polling loop observes of the outside world: the result
of `services.AvailableNodes(b, maxTime)` and the ledger contents. -/
structure View where
  nodes : List String
  ledger : Storage
deriving DecidableEq, Repr

/-- Functions of packages that `dhcp.go` imports and that are taken as given. -/
structure Deps where
  /-- The function `utils.Leader`. -/
  Leader : List String → String
  /-- The function `utils.NextIP`. -/
  NextIP : String → List String → String
  /-- The function `crypto.MD5`. -/
  MD5 : String → String
  /-- The function `filepath.Join` on two components. -/
  Join : String → String → String
  /-- The method `n.BlockSubnet`: `none` is a nil error. -/
  BlockSubnet : String → Option String

/-- Modelled from the spec: the constant `protocol.MachinesLedgerKey`, whose
declaration is outside the sources; the spec names the registry `"machines"`. -/
def MachinesLedgerKey : String := "machines"

/-- The Go constant `time.Second`, in nanoseconds. -/
def Second : Nat := 1000000000

/-- Interactions of the service with its collaborators, in program order. -/
inductive Event where
  | mkdirAll (dir : String) (perm : Nat)
  | stat (path : String)
  | readFile (path : String)
  | sleep (d : Nat)
  | availableNodes (maxTime : Nat)
  | lastBlock
  | leader (candidates : List String)
  | getKey (ledgerKey entryKey : String)
  | persist (announce expiration : Nat) (ledgerKey entryKey value : String)
  | nextIP (address : String) (ips : List String)
  | writeFile (path content : String) (perm : Nat)
  | warn
  | send (ip : String)
  | blockSubnet (cidr : String)
deriving DecidableEq, Repr

/-- Recognises a `Persist` call. -/
def Event.isPersist : Event → Bool
  | .persist _ _ _ _ _ => true
  | _ => false

/-- Recognises a `NextIP` call. -/
def Event.isNextIP : Event → Bool
  | .nextIP _ _ => true
  | _ => false

/-- Recognises a send on the channel `ip`. -/
def Event.isSend : Event → Bool
  | .send _ => true
  | _ => false

/-- Recognises the interactions that only a polling iteration performs. -/
def Event.isPolling : Event → Bool
  | .sleep _ => true
  | .availableNodes _ => true
  | .lastBlock => true
  | .leader _ => true
  | .getKey _ _ => true
  | .persist _ _ _ _ _ => true
  | .nextIP _ _ => true
  | _ => false

/-- Assignment `m[k] = v` on a Go `map[string]string`, kept as an association
list with one pair per key. -/
def mapSet : List (String × String) → String → String → List (String × String)
  | [], k, v => [(k, v)]
  | (k', v') :: t, k, v => if k' = k then (k, v) :: t else (k', v') :: mapSet t k v

/-- The test `_, exists := m[k]`. -/
def mapHas (m : List (String × String)) (k : String) : Bool :=
  (m.lookup k).isSome

/-- The function `contains` of dhcp.go. -/
def contains : List String → String → Bool
  | [], _ => false
  | s :: rest, elem => if elem = s then true else contains rest elem

/-- The first `for` of the loop body (dhcp.go lines 76-86): decode every entry
under the machines key, filling `currentIPs` and `ips`. -/
def scanMachines (entries : List (String × Data)) : List (String × String) × List String :=
  entries.foldl
    (fun acc t =>
      let m := t.2.unmarshalMachine
      (mapSet acc.1 m.PeerID m.Address, acc.2 ++ [m.Address]))
    ([], [])

/-- The second `for` of the loop body (dhcp.go lines 88-93). -/
def nodesWithNoIP (currentIPs : List (String × String)) (nodes : List String) : List String :=
  nodes.foldl (fun acc nn => if mapHas currentIPs nn then acc else acc ++ [nn]) []

/-- The result of one pass of the loop body. -/
structure Step where
  events : List Event
  wantedIP : String
deriving DecidableEq, Repr

/-- The variable `lead` after lines 107-111. -/
def readLead (s : Storage) : String :=
  match s.getKey "dhcp" "leader" with
  | some v => v.unmarshalString
  | none => ""

/-- One pass of the body of `for wantedIP == ""` (dhcp.go lines 71-134), run by
the node whose `n.Host().ID().String()` is `self`. -/
def iteration (deps : Deps) (maxTime : Nat) (address self : String) (v : View) : Step :=
  let nodes := v.nodes
  let scan := scanMachines (v.ledger.bucket MachinesLedgerKey)
  let currentIPs := scan.1
  let ips := scan.2
  let noIP := nodesWithNoIP currentIPs nodes
  let ev0 : List Event := [.sleep (5 * Second), .availableNodes maxTime, .lastBlock]
  if nodes.length ≤ 1 then
    ⟨ev0, ""⟩
  else if noIP.length = 0 then
    ⟨ev0, ""⟩
  else
    let shouldBeLeader := deps.Leader noIP
    let lead := readLead v.ledger
    let ev1 : List Event := ev0 ++ [.leader noIP, .getKey "dhcp" "leader"]
    if shouldBeLeader ≠ self ∧ lead ≠ self then
      ⟨ev1, ""⟩
    else if shouldBeLeader = self ∧ (lead = "" ∨ contains noIP lead = false) then
      ⟨ev1 ++ [.persist (5 * Second) (15 * Second) "dhcp" "leader" self], ""⟩
    else if lead ≠ self then
      ⟨ev1 ++ [.sleep (5 * Second)], ""⟩
    else
      ⟨ev1 ++ [.nextIP address ips], deps.NextIP address ips⟩

/-- The loop `for wantedIP == ""` over the successive observations of the
outside world; `none` when the observations run out while the node still polls. -/
def pollLoop (deps : Deps) (maxTime : Nat) (address self : String) :
    String → List View → Option (List Event × String)
  | wantedIP, [] => if wantedIP = "" then none else some ([], wantedIP)
  | wantedIP, v :: vs =>
    if wantedIP = "" then
      let st := iteration deps maxTime address self v
      (pollLoop deps maxTime address self st.wantedIP vs).map
        (fun r => (st.events ++ r.1, r.2))
    else some ([], wantedIP)

/-- The decoded machine records of the last block, in the order the loop visits
them: the successive values of `m` in the first `for`. -/
def machines (v : View) : List Machine :=
  (v.ledger.bucket MachinesLedgerKey).map (fun t => t.2.unmarshalMachine)

/-- The variable `currentIPs` at line 88. -/
def currentIPs (v : View) : List (String × String) :=
  (scanMachines (v.ledger.bucket MachinesLedgerKey)).1

/-- The variable `ips` at line 88. -/
def ips (v : View) : List String :=
  (scanMachines (v.ledger.bucket MachinesLedgerKey)).2

/-- The variable `nodesWithNoIP` at line 95. -/
def noIP (v : View) : List String :=
  nodesWithNoIP (currentIPs v) v.nodes

/-- The three interactions every pass starts with. -/
def pollEvents (maxTime : Nat) : List Event :=
  [.sleep (5 * Second), .availableNodes maxTime, .lastBlock]

/-- The interactions of a pass that got beyond both guards. -/
def electEvents (maxTime : Nat) (v : View) : List Event :=
  pollEvents maxTime ++ [.leader (noIP v), .getKey "dhcp" "leader"]

/-- Sample collaborators used to instantiate the theorems: the first candidate
leads, the next address is the base address, the gate never fails. -/
def sampleDeps : Deps where
  Leader := fun l => l.headD ""
  NextIP := fun address _ => address
  MD5 := fun x => x
  Join := fun dir file => dir ++ "/" ++ file
  BlockSubnet := fun _ => none

/-- Two available nodes, both already recorded with an address. -/
def viewLeased : View :=
  ⟨["a", "b"], [("machines",
    [("a", .machine ⟨"a", "10.1.0.2"⟩), ("b", .machine ⟨"b", "10.1.0.3"⟩)])]⟩

/-- Three available nodes, no machine record, no leader marker. -/
def viewFresh : View := ⟨["a", "b", "c"], []⟩

/-- Three available nodes, one of them recorded, and node "b" flagged as leader. -/
def viewLed : View :=
  ⟨["a", "b", "c"],
    [("machines", [("c", .machine ⟨"c", "10.1.0.2"⟩)]), ("dhcp", [("leader", .str "b")])]⟩

/-- Three available nodes, one of them recorded, and node "a", which is also
the computed leader of the other two, flagged as leader. -/
def viewLedSelf : View :=
  ⟨["a", "b", "c"],
    [("machines", [("c", .machine ⟨"c", "10.1.0.2"⟩)]), ("dhcp", [("leader", .str "a")])]⟩

/-- The part of the local file system the service touches: the regular files
with their content, the paths that exist but cannot be opened (a directory, a
file of another user), and whether the medium refuses every write. -/
structure FS where
  files : List (String × String)
  denied : List String
  readOnly : Bool
deriving DecidableEq, Repr

/-- The test `_, err := os.Stat(path); err == nil`. -/
def FS.stat (fs : FS) (path : String) : Bool :=
  mapHas fs.files path || decide (path ∈ fs.denied)

/-- The call `ioutil.ReadFile(path)`: `none` stands for an error. -/
def FS.readFile (fs : FS) (path : String) : Option String :=
  if path ∈ fs.denied then none else fs.files.lookup path

/-- The call `ioutil.WriteFile(path, content, 0600)`: `none` stands for an
error, otherwise the file holds exactly `content` afterwards. -/
def FS.writeFile (fs : FS) (path content : String) : Option FS :=
  if fs.readOnly = true ∨ path ∈ fs.denied then none
  else some { fs with files := mapSet fs.files path content }

/-- The path of the lease file, as computed at lines 40-41 and again at lines
138-139: `filepath.Join(leasedir, crypto.MD5(fmt.Sprintf("%s-ek", c.ExchangeKey)))`. -/
def leaseFile (deps : Deps) (exchangeKey leasedir : String) : String :=
  deps.Join leasedir (deps.MD5 (exchangeKey ++ "-ek"))

/-- The function `checkDHCPLease` of dhcp.go; the error of `ReadFile` is
dropped, leaving the empty string. -/
def checkDHCPLease (deps : Deps) (exchangeKey leasedir : String) (fs : FS) : String :=
  if fs.stat (leaseFile deps exchangeKey leasedir) = true then
    (fs.readFile (leaseFile deps exchangeKey leasedir)).getD ""
  else ""

/-- The file-system interactions of `checkDHCPLease`. -/
def checkDHCPLeaseEvents (deps : Deps) (exchangeKey leasedir : String) (fs : FS) :
    List Event :=
  if fs.stat (leaseFile deps exchangeKey leasedir) = true then
    [.stat (leaseFile deps exchangeKey leasedir), .readFile (leaseFile deps exchangeKey leasedir)]
  else [.stat (leaseFile deps exchangeKey leasedir)]

/-- What a finished run of the service leaves behind. -/
structure Outcome where
  /-- Every interaction, in program order. -/
  events : List Event
  /-- The file system after the run. -/
  fs : FS
  /-- Whether `ioutil.WriteFile` returned a nil error. -/
  leaseWritten : Bool
  /-- The value sent on the channel `ip`. -/
  sent : String
  /-- The error returned by the service, `none` for nil. -/
  ret : Option String
deriving DecidableEq, Repr

/-- The statements after the loop (dhcp.go lines 137-149) for the address
`wantedIP`, with `before` the interactions so far. -/
def saveAndGate (deps : Deps) (exchangeKey leasedir : String) (fs : FS)
    (before : List Event) (wantedIP : String) : Outcome :=
  let path := leaseFile deps exchangeKey leasedir
  match fs.writeFile path wantedIP with
  | some fs' =>
    { events := before ++
        [.writeFile path wantedIP 0o600, .send wantedIP, .blockSubnet (wantedIP ++ "/24")]
      fs := fs'
      leaseWritten := true
      sent := wantedIP
      ret := deps.BlockSubnet (wantedIP ++ "/24") }
  | none =>
    { events := before ++
        [.writeFile path wantedIP 0o600, .warn, .send wantedIP,
          .blockSubnet (wantedIP ++ "/24")]
      fs := fs
      leaseWritten := false
      sent := wantedIP
      ret := deps.BlockSubnet (wantedIP ++ "/24") }

/-- The network service returned by `DHCPNetworkService(ip, l, maxTime,
leasedir, address)`, run with config exchange key `exchangeKey` by the node
`self` on the file system `fs`, against the successive observations `views`.
The result is `none` when the observations run out before the loop ends. -/
def DHCPNetworkService (deps : Deps) (maxTime : Nat) (leasedir address : String)
    (exchangeKey self : String) (fs : FS) (views : List View) : Option Outcome :=
  let start : List Event :=
    .mkdirAll leasedir 0o600 :: checkDHCPLeaseEvents deps exchangeKey leasedir fs
  match pollLoop deps maxTime address self (checkDHCPLease deps exchangeKey leasedir fs) views with
  | none => none
  | some (evs, wantedIP) =>
    some (saveAndGate deps exchangeKey leasedir fs (start ++ evs) wantedIP)

/-- Sample collaborators whose NextIP always answers `ip`. -/
def depsWith (ip : String) : Deps :=
  { sampleDeps with NextIP := fun _ _ => ip }

/-- A file system holding nothing. -/
def fsEmpty : FS := ⟨[], [], false⟩

/-- A file system whose lease file for the key "secret" exists and is empty. -/
def fsBlankLease : FS := ⟨[("leases/secret-ek", "")], [], false⟩

/-- A file system that refuses every write. -/
def fsReadOnly : FS := ⟨[], [], true⟩

/-- The outcome of a first run in which node "b", flagged as leader, is given
the address "10.1.0.5" and writes its lease. -/
def lease5 : Outcome where
  events := [.mkdirAll "leases" 0o600, .stat "leases/secret-ek"] ++ electEvents 900 viewLed ++
    [.nextIP "10.1.0.1" ["10.1.0.2"], .writeFile "leases/secret-ek" "10.1.0.5" 0o600,
      .send "10.1.0.5", .blockSubnet "10.1.0.5/24"]
  fs := ⟨[("leases/secret-ek", "10.1.0.5")], [], false⟩
  leaseWritten := true
  sent := "10.1.0.5"
  ret := none

/-! ## Definitions: the sealer -/

/-- A byte; a Go string is a sequence of bytes. -/
abbrev Byte := Fin 256

namespace AESSealer

/-- Modelled from the spec: the cipher primitive under the `AESSealer` of
pkg/crypto, whose code is not available (only its test, sealer_test.go, is).  The
spec (4.6, 6) asks for authenticated symmetric encryption with a token laid
out as nonce, ciphertext, authentication tag, and leaves the primitive open; it
is kept open here: any key stream and any 16-byte tag, both functions of the
key and the nonce. -/
structure Cipher where
  keystream : List Byte → List Byte → Nat → Byte
  tag : List Byte → List Byte → List Byte → Fin 16 → Byte

/-- Modelled from the spec: the length of the per-call random nonce.  The spec
fixes only the total: a 3-byte plaintext gives a token of 62 characters, which
12 nonce bytes, 16 tag bytes and two characters a byte meet. -/
def nonceSize : Nat := 12

/-- Modelled from the spec: the length of the authentication tag. -/
def tagSize : Nat := 16

/-- Modelled from the spec: combining data with the key stream from position `i` on. -/
def xorFrom (ks : Nat → Byte) : Nat → List Byte → List Byte
  | _, [] => []
  | i, b :: bs => (b ^^^ ks i) :: xorFrom ks (i + 1) bs

/-- Modelled from the spec: one character of the token, which the spec calls an
opaque string; a lower-case hexadecimal digit is used. -/
def hexDigit (d : Fin 16) : Char :=
  if d.val < 10 then Char.ofNat (48 + d.val) else Char.ofNat (87 + d.val)

/-- Modelled from the spec: the value of a hexadecimal digit of the token. -/
def hexValue (c : Char) : Option (Fin 16) :=
  if h : 48 ≤ c.toNat ∧ c.toNat < 58 then some ⟨c.toNat - 48, by omega⟩
  else if h : 97 ≤ c.toNat ∧ c.toNat < 103 then some ⟨c.toNat - 87, by omega⟩
  else none

/-- Modelled from the spec: the token text of a byte sequence, two digits a byte. -/
def hexChars : List Byte → List Char
  | [] => []
  | b :: bs =>
    hexDigit ⟨b.val / 16, by omega⟩ :: hexDigit ⟨b.val % 16, by omega⟩ :: hexChars bs

/-- Modelled from the spec: the token as a string. -/
def encodeHex (bytes : List Byte) : String :=
  String.mk (hexChars bytes)

/-- Modelled from the spec: reading the digits of a token back into bytes. -/
def decodeHexChars : List Char → Option (List Byte)
  | [] => some []
  | [_] => none
  | a :: b :: rest =>
    match hexValue a, hexValue b, decodeHexChars rest with
    | some hi, some lo, some tl => some (⟨hi.val * 16 + lo.val, by omega⟩ :: tl)
    | _, _, _ => none

/-- Modelled from the spec: reading a token back into bytes. -/
def decodeHex (token : String) : Option (List Byte) :=
  decodeHexChars token.data

/-- Modelled from the spec: `AESSealer.Seal(message, key)` (spec 4.6), with
`rnd` the random source the call draws its nonce from.  The token is the text
of nonce, ciphertext and tag, in this order. -/
def Seal (c : Cipher) (rnd : Nat → Byte) (message key : List Byte) : Except String String :=
  let nonce := List.ofFn (fun i : Fin nonceSize => rnd i.val)
  let ct := xorFrom (c.keystream key nonce) 0 message
  let tag := List.ofFn (c.tag key nonce ct)
  .ok (encodeHex (nonce ++ (ct ++ tag)))

/-- Modelled from the spec: `AESSealer.Unseal(token, key)` (spec 4.6): a token
that is not well formed, or whose tag does not match, is refused. -/
def Unseal (c : Cipher) (token : String) (key : List Byte) : Except String (List Byte) :=
  match decodeHex token with
  | none => .error "malformed token"
  | some raw =>
    if raw.length < nonceSize + tagSize then .error "malformed token"
    else
      let nonce := raw.take nonceSize
      let body := raw.drop nonceSize
      let ct := body.take (body.length - tagSize)
      let tag := body.drop (body.length - tagSize)
      if tag = List.ofFn (c.tag key nonce ct) then
        .ok (xorFrom (c.keystream key nonce) 0 ct)
      else .error "message authentication failed"

/-- A sample cipher primitive: key and nonce bytes added up as key stream, a
tag mixing key, nonce and the ciphertext length. -/
def sampleCipher : Cipher where
  keystream := fun key nonce i => key.getD i 0 + nonce.getD (i % 12) 0
  tag := fun key nonce ct i =>
    (key.getD i.val 0 ^^^ nonce.getD (i.val % 12) 0) + Fin.ofNat ct.length

/-- The bytes of the string "foo". -/
def foo : List Byte := [102, 111, 111]

/-- A key of 32 characters. -/
def key32 : List Byte := List.replicate 32 107

end AESSealer

/-! ## Theorems: the address allocator -/

theorem lookup_mapSet (m : List (String × String)) (k v k' : String) :
    (mapSet m k v).lookup k' = if k' = k then some v else m.lookup k' := by
  induction m with
  | nil =>
    by_cases h : k' = k
    · simp [mapSet, List.lookup, h]
    · have hb : (k' == k) = false := by simpa using h
      simp [mapSet, List.lookup, h, hb]
  | cons p t ih =>
    obtain ⟨a, b⟩ := p
    by_cases hak : a = k
    · by_cases h : k' = k
      · simp [mapSet, List.lookup, hak, h]
      · have hb : (k' == k) = false := by simpa using h
        simp [mapSet, List.lookup, hak, h, hb]
    · by_cases ha : k' = a
      · have hk : ¬ a = k := hak
        subst ha
        simp [mapSet, List.lookup, hk]
      · have hb : (k' == a) = false := by simpa using ha
        simp [mapSet, List.lookup, hak, hb, ih]

theorem mapHas_mapSet (m : List (String × String)) (k v k' : String) :
    mapHas (mapSet m k v) k' = true ↔ k' = k ∨ mapHas m k' = true := by
  unfold mapHas
  rw [lookup_mapSet]
  by_cases h : k' = k
  · simp [h]
  · simp [h]

theorem scan_foldl (entries : List (String × Data)) (c : List (String × String))
    (i : List String) :
    let r := entries.foldl
      (fun acc t =>
        let m := t.2.unmarshalMachine
        (mapSet acc.1 m.PeerID m.Address, acc.2 ++ [m.Address]))
      (c, i)
    (∀ k, mapHas r.1 k = true ↔
        mapHas c k = true ∨ k ∈ entries.map (fun t => t.2.unmarshalMachine.PeerID)) ∧
      r.2 = i ++ entries.map (fun t => t.2.unmarshalMachine.Address) := by
  induction entries generalizing c i with
  | nil => simp
  | cons t ts ih =>
    simp only [List.foldl_cons, List.map_cons, List.mem_cons]
    obtain ⟨h1, h2⟩ := ih (mapSet c t.2.unmarshalMachine.PeerID t.2.unmarshalMachine.Address)
      (i ++ [t.2.unmarshalMachine.Address])
    refine ⟨fun k => ?_, ?_⟩
    · rw [h1 k, mapHas_mapSet]
      tauto
    · rw [h2]
      simp

/-- The map `currentIPs` has a key exactly for the PeerIDs of the decoded
machine records. -/
theorem mapHas_currentIPs (v : View) (k : String) :
    mapHas (currentIPs v) k = true ↔ k ∈ (machines v).map Machine.PeerID := by
  have h := (scan_foldl (v.ledger.bucket MachinesLedgerKey) [] []).1 k
  simp only [currentIPs, scanMachines, machines, List.map_map]
  rw [h]
  simp [mapHas, Function.comp]

/-- The list `ips` holds the Address of every decoded machine record, in order. -/
theorem ips_eq (v : View) : ips v = (machines v).map Machine.Address := by
  have h := (scan_foldl (v.ledger.bucket MachinesLedgerKey) [] []).2
  simp only [ips, scanMachines, machines, List.map_map]
  rw [h]
  simp [Function.comp]

theorem nodesWithNoIP_foldl (c : List (String × String)) (nodes acc : List String) :
    nodes.foldl (fun acc nn => if mapHas c nn then acc else acc ++ [nn]) acc
      = acc ++ nodes.filter (fun nn => !mapHas c nn) := by
  induction nodes generalizing acc with
  | nil => simp
  | cons n ns ih =>
    simp only [List.foldl_cons, List.filter_cons]
    rw [ih]
    cases h : mapHas c n <;> simp

theorem nodesWithNoIP_eq_filter (c : List (String × String)) (nodes : List String) :
    nodesWithNoIP c nodes = nodes.filter (fun nn => !mapHas c nn) := by
  unfold nodesWithNoIP
  rw [nodesWithNoIP_foldl]
  simp

theorem contains_iff (l : List String) (e : String) : contains l e = true ↔ e ∈ l := by
  induction l with
  | nil => simp [contains]
  | cons s rest ih =>
    by_cases h : e = s
    · simp [contains, h]
    · simp [contains, h, ih]

theorem mem_noIP (v : View) (n : String) :
    n ∈ noIP v ↔ n ∈ v.nodes ∧ n ∉ (machines v).map Machine.PeerID := by
  unfold noIP
  rw [nodesWithNoIP_eq_filter, List.mem_filter]
  rw [← mapHas_currentIPs]
  cases mapHas (currentIPs v) n <;> simp

theorem iteration_eq (deps : Deps) (maxTime : Nat) (address self : String) (v : View) :
    iteration deps maxTime address self v =
      if v.nodes.length ≤ 1 then ⟨pollEvents maxTime, ""⟩
      else if (noIP v).length = 0 then ⟨pollEvents maxTime, ""⟩
      else if deps.Leader (noIP v) ≠ self ∧ readLead v.ledger ≠ self then
        ⟨electEvents maxTime v, ""⟩
      else if deps.Leader (noIP v) = self ∧
          (readLead v.ledger = "" ∨ contains (noIP v) (readLead v.ledger) = false) then
        ⟨electEvents maxTime v ++
          [.persist (5 * Second) (15 * Second) "dhcp" "leader" self], ""⟩
      else if readLead v.ledger ≠ self then
        ⟨electEvents maxTime v ++ [.sleep (5 * Second)], ""⟩
      else
        ⟨electEvents maxTime v ++ [.nextIP address (ips v)], deps.NextIP address (ips v)⟩ :=
  rfl

theorem readLead_eq_of_ne_empty (s : Storage) (self : String) (hid : self ≠ "")
    (h : readLead s = self) : s.getKey "dhcp" "leader" = some (.str self) := by
  unfold readLead at h
  cases hk : s.getKey "dhcp" "leader" with
  | none => rw [hk] at h; exact absurd h.symm hid
  | some d =>
    rw [hk] at h
    cases d with
    | machine m => exact absurd h.symm hid
    | str t => simp only [Data.unmarshalString] at h; rw [h]
    | junk => exact absurd h.symm hid

theorem readLead_of_getKey (s : Storage) (t : String)
    (h : s.getKey "dhcp" "leader" = some (.str t)) : readLead s = t := by
  simp [readLead, h, Data.unmarshalString]

/-- C1: a pass that sees at most one available node, or in which every
available node is the PeerID of a machine record, performs only the three
polling interactions: no Persist call, no NextIP call, no election, and
`wantedIP` stays empty, so the loop polls again. -/
theorem C1_guards_keep_polling (deps : Deps) (maxTime : Nat) (address self : String)
    (v : View)
    (h : v.nodes.length ≤ 1 ∨ ∀ n ∈ v.nodes, ∃ m ∈ machines v, m.PeerID = n) :
    (iteration deps maxTime address self v).events = pollEvents maxTime ∧
    (∀ e ∈ (iteration deps maxTime address self v).events, e.isPersist = false) ∧
    (∀ e ∈ (iteration deps maxTime address self v).events, e.isNextIP = false) ∧
    (iteration deps maxTime address self v).wantedIP = "" ∧
    (∀ vs, pollLoop deps maxTime address self "" (v :: vs) =
      (pollLoop deps maxTime address self "" vs).map
        (fun r => (pollEvents maxTime ++ r.1, r.2))) := by
  have hst : iteration deps maxTime address self v = ⟨pollEvents maxTime, ""⟩ := by
    rw [iteration_eq]
    rcases h with h | h
    · simp [h]
    · have hnil : noIP v = [] := by
        apply List.eq_nil_iff_forall_not_mem.mpr
        intro n hn
        rw [mem_noIP] at hn
        obtain ⟨m, hm, hmn⟩ := h n hn.1
        exact hn.2 (List.mem_map.mpr ⟨m, hm, hmn⟩)
      simp [hnil]
  refine ⟨by rw [hst], ?_, ?_, by rw [hst], ?_⟩
  · rw [hst]
    intro e he
    simp only [pollEvents, List.mem_cons, List.mem_singleton, List.not_mem_nil, or_false] at he
    rcases he with rfl | rfl | rfl <;> rfl
  · rw [hst]
    intro e he
    simp only [pollEvents, List.mem_cons, List.mem_singleton, List.not_mem_nil, or_false] at he
    rcases he with rfl | rfl | rfl <;> rfl
  · intro vs
    simp only [pollLoop, if_true, hst]

theorem C1_guards_keep_polling_witness :
    (∀ n ∈ viewLeased.nodes, ∃ m ∈ machines viewLeased, m.PeerID = n) ∧
    (iteration sampleDeps 900 "10.1.0.1" "a" viewLeased).events = pollEvents 900 ∧
    (iteration sampleDeps 900 "10.1.0.1" "a" viewLeased).wantedIP = "" :=
  have h : ∀ n ∈ viewLeased.nodes, ∃ m ∈ machines viewLeased, m.PeerID = n := by decide
  ⟨h, (C1_guards_keep_polling sampleDeps 900 "10.1.0.1" "a" viewLeased (Or.inr h)).1,
    (C1_guards_keep_polling sampleDeps 900 "10.1.0.1" "a" viewLeased (Or.inr h)).2.2.2.1⟩

/-- C2: a pass beyond both guards in which this node is the computed leader and
the marker under ("dhcp","leader") is absent, empty, or names no node of
`nodesWithNoIP` makes exactly one Persist call, with announce interval 5 s,
expiration 15 s, ledger key "dhcp", entry key "leader" and this node's ID as
value; it calls NextIP not at all and leaves `wantedIP` empty. -/
theorem C2_announce_then_repoll (deps : Deps) (maxTime : Nat) (address self : String)
    (v : View) (h1 : 1 < v.nodes.length) (h2 : noIP v ≠ [])
    (hL : deps.Leader (noIP v) = self)
    (hm : v.ledger.getKey "dhcp" "leader" = none ∨ readLead v.ledger = "" ∨
      readLead v.ledger ∉ noIP v) :
    (iteration deps maxTime address self v).events.filter Event.isPersist =
      [.persist (5 * 1000000000) (15 * 1000000000) "dhcp" "leader" self] ∧
    (iteration deps maxTime address self v).events =
      electEvents maxTime v ++ [.persist (5 * Second) (15 * Second) "dhcp" "leader" self] ∧
    (∀ e ∈ (iteration deps maxTime address self v).events, e.isNextIP = false) ∧
    (iteration deps maxTime address self v).wantedIP = "" ∧
    (∀ vs, pollLoop deps maxTime address self "" (v :: vs) =
      (pollLoop deps maxTime address self "" vs).map
        (fun r => ((electEvents maxTime v ++
          [.persist (5 * Second) (15 * Second) "dhcp" "leader" self]) ++ r.1, r.2))) := by
  have hm' : readLead v.ledger = "" ∨ contains (noIP v) (readLead v.ledger) = false := by
    rcases hm with hm | hm | hm
    · left; simp [readLead, hm]
    · left; exact hm
    · right
      cases hc : contains (noIP v) (readLead v.ledger)
      · rfl
      · exact absurd ((contains_iff _ _).mp hc) hm
  have hlen : ¬ (noIP v).length = 0 := by
    intro h
    exact h2 (List.length_eq_zero.mp h)
  have hst : iteration deps maxTime address self v =
      ⟨electEvents maxTime v ++ [.persist (5 * Second) (15 * Second) "dhcp" "leader" self],
        ""⟩ := by
    rw [iteration_eq]
    rw [if_neg (by omega), if_neg hlen, if_neg (fun h => h.1 hL), if_pos ⟨hL, hm'⟩]
  have hloop : ∀ vs, pollLoop deps maxTime address self "" (v :: vs) =
      (pollLoop deps maxTime address self "" vs).map
        (fun r => ((electEvents maxTime v ++
          [.persist (5 * Second) (15 * Second) "dhcp" "leader" self]) ++ r.1, r.2)) := by
    intro vs
    simp only [pollLoop, if_true, hst]
  rw [hst]
  refine ⟨?_, rfl, ?_, rfl, hloop⟩
  · simp [electEvents, pollEvents, List.filter, Event.isPersist, Second]
  · intro e he
    simp only [electEvents, pollEvents, List.cons_append, List.nil_append, List.mem_cons,
      List.mem_singleton, List.not_mem_nil, or_false] at he
    rcases he with rfl | rfl | rfl | rfl | rfl | rfl <;> rfl

theorem C2_announce_then_repoll_witness :
    (1 < viewFresh.nodes.length ∧ noIP viewFresh ≠ [] ∧
      sampleDeps.Leader (noIP viewFresh) = "a" ∧
      viewFresh.ledger.getKey "dhcp" "leader" = none) ∧
    (iteration sampleDeps 900 "10.1.0.1" "a" viewFresh).events.filter Event.isPersist =
      [.persist (5 * 1000000000) (15 * 1000000000) "dhcp" "leader" "a"] :=
  ⟨by decide,
    (C2_announce_then_repoll sampleDeps 900 "10.1.0.1" "a" viewFresh (by decide) (by decide)
      (by decide) (Or.inl (by decide))).1⟩

/-- C3: a pass beyond both guards in which the value read from
("dhcp","leader") is this node's ID goes on to assignment: it makes no Persist
call, calls NextIP once on the base address and the Address fields of all
machine records of the last block, and stores the result in `wantedIP`;
whether the computed leader is this node plays no role.  Leader is taken to
return a member of its argument, and the ID of the running host, which libp2p
derives from the host's key, is taken to be a non-empty string (were it empty,
the test `lead == ""` of line 118 would send the computed leader back to
announcing). -/
theorem C3_flagged_leader_assigns (deps : Deps) (maxTime : Nat) (address self : String)
    (v : View) (h1 : 1 < v.nodes.length) (h2 : noIP v ≠ [])
    (hmem : deps.Leader (noIP v) ∈ noIP v) (hid : self ≠ "")
    (hlead : readLead v.ledger = self) :
    (iteration deps maxTime address self v).events =
      electEvents maxTime v ++ [.nextIP address ((machines v).map Machine.Address)] ∧
    (∀ e ∈ (iteration deps maxTime address self v).events, e.isPersist = false) ∧
    (iteration deps maxTime address self v).wantedIP =
      deps.NextIP address ((machines v).map Machine.Address) := by
  have hlen : ¬ (noIP v).length = 0 := fun h => h2 (List.length_eq_zero.mp h)
  have hann : ¬ (deps.Leader (noIP v) = self ∧
      (readLead v.ledger = "" ∨ contains (noIP v) (readLead v.ledger) = false)) := by
    rintro ⟨hL, hc | hc⟩
    · exact hid (hlead ▸ hc)
    · rw [hlead, ← hL] at hc
      have := (contains_iff _ _).mpr hmem
      rw [hc] at this
      exact Bool.false_ne_true this
  have hst : iteration deps maxTime address self v =
      ⟨electEvents maxTime v ++ [.nextIP address (ips v)], deps.NextIP address (ips v)⟩ := by
    rw [iteration_eq]
    rw [if_neg (by omega), if_neg hlen, if_neg (fun h => h.2 hlead), if_neg hann,
      if_neg (fun h => h hlead)]
  rw [hst, ips_eq]
  refine ⟨rfl, ?_, rfl⟩
  intro e he
  simp only [electEvents, pollEvents, List.cons_append, List.nil_append, List.mem_cons,
    List.mem_singleton, List.not_mem_nil, or_false] at he
  rcases he with rfl | rfl | rfl | rfl | rfl | rfl <;> rfl

theorem C3_flagged_leader_assigns_witness :
    ((1 < viewLed.nodes.length ∧ noIP viewLed ≠ [] ∧
        sampleDeps.Leader (noIP viewLed) ∈ noIP viewLed ∧
        sampleDeps.Leader (noIP viewLed) ≠ "b" ∧ "b" ≠ "" ∧ readLead viewLed.ledger = "b") ∧
      (iteration sampleDeps 900 "10.1.0.1" "b" viewLed).wantedIP =
        sampleDeps.NextIP "10.1.0.1" ["10.1.0.2"]) ∧
    ((1 < viewLedSelf.nodes.length ∧ noIP viewLedSelf ≠ [] ∧
        sampleDeps.Leader (noIP viewLedSelf) ∈ noIP viewLedSelf ∧
        sampleDeps.Leader (noIP viewLedSelf) = "a" ∧ "a" ≠ "" ∧
        readLead viewLedSelf.ledger = "a") ∧
      (iteration sampleDeps 900 "10.1.0.1" "a" viewLedSelf).wantedIP =
        sampleDeps.NextIP "10.1.0.1" ["10.1.0.2"]) :=
  ⟨⟨by decide,
    (C3_flagged_leader_assigns sampleDeps 900 "10.1.0.1" "b" viewLed (by decide) (by decide)
      (by decide) (by decide) (by decide)).2.2⟩,
   ⟨by decide,
    (C3_flagged_leader_assigns sampleDeps 900 "10.1.0.1" "a" viewLedSelf (by decide)
      (by decide) (by decide) (by decide) (by decide)).2.2⟩⟩

/-- C4: a pass beyond both guards run by a node that is neither the computed
leader nor the value read from ("dhcp","leader") makes no Persist call and no
NextIP call and leaves `wantedIP` empty: it performs the reads of the election
and polls again. -/
theorem C4_follower_waits (deps : Deps) (maxTime : Nat) (address self : String)
    (v : View) (h1 : 1 < v.nodes.length) (h2 : noIP v ≠ [])
    (hL : deps.Leader (noIP v) ≠ self) (hlead : readLead v.ledger ≠ self) :
    (iteration deps maxTime address self v).events = electEvents maxTime v ∧
    (∀ e ∈ (iteration deps maxTime address self v).events, e.isPersist = false) ∧
    (∀ e ∈ (iteration deps maxTime address self v).events, e.isNextIP = false) ∧
    (iteration deps maxTime address self v).wantedIP = "" ∧
    (∀ vs, pollLoop deps maxTime address self "" (v :: vs) =
      (pollLoop deps maxTime address self "" vs).map
        (fun r => (electEvents maxTime v ++ r.1, r.2))) := by
  have hlen : ¬ (noIP v).length = 0 := fun h => h2 (List.length_eq_zero.mp h)
  have hst : iteration deps maxTime address self v = ⟨electEvents maxTime v, ""⟩ := by
    rw [iteration_eq]
    rw [if_neg (by omega), if_neg hlen, if_pos ⟨hL, hlead⟩]
  rw [hst]
  refine ⟨rfl, ?_, ?_, rfl, ?_⟩
  · intro e he
    simp only [electEvents, pollEvents, List.cons_append, List.nil_append, List.mem_cons,
      List.mem_singleton, List.not_mem_nil, or_false] at he
    rcases he with rfl | rfl | rfl | rfl | rfl <;> rfl
  · intro e he
    simp only [electEvents, pollEvents, List.cons_append, List.nil_append, List.mem_cons,
      List.mem_singleton, List.not_mem_nil, or_false] at he
    rcases he with rfl | rfl | rfl | rfl | rfl <;> rfl
  · intro vs
    simp only [pollLoop, if_true, hst]

theorem C4_follower_waits_witness :
    (1 < viewFresh.nodes.length ∧ noIP viewFresh ≠ [] ∧
      sampleDeps.Leader (noIP viewFresh) ≠ "c" ∧ readLead viewFresh.ledger ≠ "c") ∧
    (iteration sampleDeps 900 "10.1.0.1" "c" viewFresh).events = electEvents 900 viewFresh ∧
    (iteration sampleDeps 900 "10.1.0.1" "c" viewFresh).wantedIP = "" :=
  ⟨by decide,
    (C4_follower_waits sampleDeps 900 "10.1.0.1" "c" viewFresh (by decide) (by decide)
      (by decide) (by decide)).1,
    (C4_follower_waits sampleDeps 900 "10.1.0.1" "c" viewFresh (by decide) (by decide)
      (by decide) (by decide)).2.2.2.1⟩

/-- C7: `nodesWithNoIP` is `nodes` minus the peers present in `currentIPs`: the
sub-list of `nodes`, in the same order, of the identifiers that are the PeerID
of no machine record of the last block; each of its elements is an available
node and none is a key of `currentIPs`. -/
theorem C7_nodesWithNoIP_is_difference (v : View) :
    noIP v = v.nodes.filter (fun n => decide (n ∉ (machines v).map Machine.PeerID)) ∧
    List.Sublist (noIP v) v.nodes ∧
    (∀ n, n ∈ noIP v ↔ n ∈ v.nodes ∧ ∀ m ∈ machines v, m.PeerID ≠ n) ∧
    (∀ n ∈ noIP v, n ∈ v.nodes ∧ mapHas (currentIPs v) n = false) := by
  have hf : noIP v =
      v.nodes.filter (fun n => decide (n ∉ (machines v).map Machine.PeerID)) := by
    unfold noIP
    rw [nodesWithNoIP_eq_filter]
    apply List.filter_congr
    intro n _
    have h := mapHas_currentIPs v n
    cases hc : mapHas (currentIPs v) n
    · rw [hc] at h
      have : n ∉ (machines v).map Machine.PeerID := fun hx => Bool.false_ne_true (h.mpr hx)
      simp [this]
    · rw [hc] at h
      have : n ∈ (machines v).map Machine.PeerID := h.mp rfl
      simp [this]
  refine ⟨hf, ?_, ?_, ?_⟩
  · rw [hf]
    exact List.filter_sublist _
  · intro n
    rw [mem_noIP]
    simp only [List.mem_map, not_exists, not_and]
  · intro n hn
    have h := (mem_noIP v n).mp hn
    refine ⟨h.1, ?_⟩
    cases hc : mapHas (currentIPs v) n
    · rfl
    · exact absurd ((mapHas_currentIPs v n).mp hc) h.2

/-- C10: a pass chooses an address (calls NextIP, or leaves `wantedIP`
non-empty) only if in that same pass at least two nodes are available,
`nodesWithNoIP` is non-empty and the entry under ("dhcp","leader") exists and
decodes to this node's own ID; such a pass makes no Persist call.  In
particular a pass that announces, and a pass of a node that the marker does not
name (even when it is the computed leader), neither calls NextIP nor sets
`wantedIP`.  The ID of the running host is a non-empty string. -/
theorem C10_assign_only_when_flagged (deps : Deps) (maxTime : Nat)
    (address self : String) (v : View) (hid : self ≠ "") :
    (((∃ e ∈ (iteration deps maxTime address self v).events, e.isNextIP = true) ∨
        (iteration deps maxTime address self v).wantedIP ≠ "") →
      2 ≤ v.nodes.length ∧ noIP v ≠ [] ∧
        v.ledger.getKey "dhcp" "leader" = some (.str self) ∧
        ∀ e ∈ (iteration deps maxTime address self v).events, e.isPersist = false) ∧
    ((∃ e ∈ (iteration deps maxTime address self v).events, e.isPersist = true) →
      (∀ e ∈ (iteration deps maxTime address self v).events, e.isNextIP = false) ∧
        (iteration deps maxTime address self v).wantedIP = "") ∧
    (readLead v.ledger ≠ self →
      (∀ e ∈ (iteration deps maxTime address self v).events, e.isNextIP = false) ∧
        (iteration deps maxTime address self v).wantedIP = "") := by
  rw [iteration_eq]
  by_cases g1 : v.nodes.length ≤ 1
  · simp [g1, pollEvents, Event.isNextIP, Event.isPersist]
  by_cases g2 : (noIP v).length = 0
  · simp [g1, g2, pollEvents, Event.isNextIP, Event.isPersist]
  by_cases g3 : deps.Leader (noIP v) ≠ self ∧ readLead v.ledger ≠ self
  · simp [g1, g2, g3, electEvents, pollEvents, Event.isNextIP, Event.isPersist]
  by_cases g4 : deps.Leader (noIP v) = self ∧
      (readLead v.ledger = "" ∨ contains (noIP v) (readLead v.ledger) = false)
  · rw [if_neg g1, if_neg g2, if_neg g3, if_pos g4]
    simp [electEvents, pollEvents, Event.isNextIP, Event.isPersist]
  by_cases g5 : readLead v.ledger ≠ self
  · rw [if_neg g1, if_neg g2, if_neg g3, if_neg g4, if_pos g5]
    simp [electEvents, pollEvents, Event.isNextIP, Event.isPersist]
  · rw [if_neg g1, if_neg g2, if_neg g3, if_neg g4, if_neg g5]
    have hlead : readLead v.ledger = self := not_not.mp g5
    have hkey := readLead_eq_of_ne_empty v.ledger self hid hlead
    have hne : noIP v ≠ [] := fun h => g2 (by rw [h]; rfl)
    refine ⟨fun _ => ⟨by omega, hne, hkey, ?_⟩, ?_, fun h => absurd hlead h⟩
    · simp [electEvents, pollEvents, Event.isPersist]
    · simp [electEvents, pollEvents, Event.isPersist]

theorem C10_assign_only_when_flagged_witness :
    ("b" ≠ "" ∧ (iteration sampleDeps 900 "10.1.0.1" "b" viewLed).wantedIP ≠ "") ∧
    (2 ≤ viewLed.nodes.length ∧ noIP viewLed ≠ [] ∧
      viewLed.ledger.getKey "dhcp" "leader" = some (.str "b") ∧
      ∀ e ∈ (iteration sampleDeps 900 "10.1.0.1" "b" viewLed).events,
        e.isPersist = false) :=
  ⟨by decide,
    (C10_assign_only_when_flagged sampleDeps 900 "10.1.0.1" "b" viewLed (by decide)).1
      (Or.inr (by decide))⟩

theorem pollLoop_of_ne_empty (deps : Deps) (maxTime : Nat) (address self w : String)
    (views : List View) (hw : w ≠ "") :
    pollLoop deps maxTime address self w views = some ([], w) := by
  cases views with
  | nil => simp [pollLoop, hw]
  | cons v vs => simp [pollLoop, hw]

theorem pollLoop_result_ne_empty (deps : Deps) (maxTime : Nat) (address self : String)
    (views : List View) (w : String) (evs : List Event) (A : String)
    (h : pollLoop deps maxTime address self w views = some (evs, A)) : A ≠ "" := by
  induction views generalizing w evs with
  | nil =>
    by_cases hw : w = ""
    · simp [pollLoop, hw] at h
    · simp only [pollLoop, if_neg hw, Option.some.injEq, Prod.mk.injEq] at h
      exact h.2 ▸ hw
  | cons v vs ih =>
    by_cases hw : w = ""
    · simp only [pollLoop, hw, if_true, Option.map_eq_some'] at h
      obtain ⟨r, hr, hr2⟩ := h
      obtain ⟨e1, a1⟩ := r
      simp only [Prod.mk.injEq] at hr2
      obtain ⟨-, rfl⟩ := hr2
      exact ih _ _ hr
    · simp only [pollLoop, if_neg hw, Option.some.injEq, Prod.mk.injEq] at h
      exact h.2 ▸ hw

theorem stat_of_readFile (fs : FS) (path content : String)
    (h : fs.readFile path = some content) : fs.stat path = true := by
  unfold FS.readFile at h
  by_cases hd : path ∈ fs.denied
  · simp [hd] at h
  · simp only [if_neg hd] at h
    simp [FS.stat, mapHas, h]

theorem readFile_writeFile (fs fs' : FS) (path content : String)
    (h : fs.writeFile path content = some fs') : fs'.readFile path = some content := by
  unfold FS.writeFile at h
  by_cases hc : fs.readOnly = true ∨ path ∈ fs.denied
  · simp [hc] at h
  · simp only [if_neg hc, Option.some.injEq] at h
    have hd : path ∉ fs.denied := fun hx => hc (Or.inr hx)
    subst h
    simp [FS.readFile, hd, lookup_mapSet]

theorem checkDHCPLease_of_readFile (deps : Deps) (exchangeKey leasedir : String) (fs : FS)
    (content : String)
    (h : fs.readFile (leaseFile deps exchangeKey leasedir) = some content) :
    checkDHCPLease deps exchangeKey leasedir fs = content := by
  simp [checkDHCPLease, stat_of_readFile fs _ _ h, h]

theorem saveAndGate_sent (deps : Deps) (exchangeKey leasedir : String) (fs : FS)
    (before : List Event) (A : String) :
    (saveAndGate deps exchangeKey leasedir fs before A).sent = A ∧
    (saveAndGate deps exchangeKey leasedir fs before A).ret = deps.BlockSubnet (A ++ "/24") := by
  unfold saveAndGate
  dsimp only
  split <;> exact ⟨rfl, rfl⟩

theorem saveAndGate_events (deps : Deps) (exchangeKey leasedir : String) (fs : FS)
    (before : List Event) (A : String) (hb : ∀ e ∈ before, e.isPolling = false) :
    ∀ e ∈ (saveAndGate deps exchangeKey leasedir fs before A).events, e.isPolling = false := by
  unfold saveAndGate
  dsimp only
  split
  · intro e he
    simp only [List.mem_append, List.mem_cons, List.mem_singleton, List.not_mem_nil,
      or_false] at he
    rcases he with he | rfl | rfl | rfl
    · exact hb e he
    all_goals rfl
  · intro e he
    simp only [List.mem_append, List.mem_cons, List.mem_singleton, List.not_mem_nil,
      or_false] at he
    rcases he with he | rfl | rfl | rfl | rfl
    · exact hb e he
    all_goals rfl

theorem start_events_not_polling (deps : Deps) (exchangeKey leasedir : String) (fs : FS) :
    ∀ e ∈ (Event.mkdirAll leasedir 0o600 ::
      checkDHCPLeaseEvents deps exchangeKey leasedir fs), e.isPolling = false := by
  intro e he
  unfold checkDHCPLeaseEvents at he
  by_cases hs : fs.stat (leaseFile deps exchangeKey leasedir) = true
  · simp only [hs, if_true, List.mem_cons, List.mem_singleton, List.not_mem_nil,
      or_false] at he
    rcases he with rfl | rfl | rfl <;> rfl
  · rw [if_neg hs] at he
    simp only [List.mem_cons, List.mem_singleton, List.not_mem_nil, or_false] at he
    rcases he with rfl | rfl <;> rfl

theorem start_events_not_send (deps : Deps) (exchangeKey leasedir : String) (fs : FS) :
    ∀ e ∈ (Event.mkdirAll leasedir 0o600 ::
      checkDHCPLeaseEvents deps exchangeKey leasedir fs), e.isSend = false := by
  intro e he
  unfold checkDHCPLeaseEvents at he
  by_cases hs : fs.stat (leaseFile deps exchangeKey leasedir) = true
  · simp only [hs, if_true, List.mem_cons, List.mem_singleton, List.not_mem_nil,
      or_false] at he
    rcases he with rfl | rfl | rfl <;> rfl
  · rw [if_neg hs] at he
    simp only [List.mem_cons, List.mem_singleton, List.not_mem_nil, or_false] at he
    rcases he with rfl | rfl <;> rfl

/-- A stored non-empty lease ends the service before the first pass. -/
theorem service_of_lease (deps : Deps) (maxTime : Nat) (leasedir address : String)
    (exchangeKey self : String) (fs : FS) (views : List View) (content : String)
    (hread : fs.readFile (leaseFile deps exchangeKey leasedir) = some content)
    (hne : content ≠ "") :
    DHCPNetworkService deps maxTime leasedir address exchangeKey self fs views =
      some (saveAndGate deps exchangeKey leasedir fs
        ([.mkdirAll leasedir 0o600, .stat (leaseFile deps exchangeKey leasedir),
          .readFile (leaseFile deps exchangeKey leasedir)] ++ []) content) := by
  unfold DHCPNetworkService
  rw [checkDHCPLease_of_readFile deps exchangeKey leasedir fs content hread,
    pollLoop_of_ne_empty deps maxTime address self content views hne]
  simp [checkDHCPLeaseEvents, stat_of_readFile fs _ _ hread]

theorem iteration_events_polling (deps : Deps) (maxTime : Nat) (address self : String)
    (v : View) : ∀ e ∈ (iteration deps maxTime address self v).events, e.isPolling = true := by
  intro e he
  rw [iteration_eq] at he
  split_ifs at he <;>
    simp only [electEvents, pollEvents, List.cons_append, List.nil_append, List.mem_cons,
      List.mem_singleton, List.not_mem_nil, or_false] at he <;>
    rcases he with rfl | rfl | rfl | rfl | rfl | rfl <;> rfl

theorem pollLoop_events_polling (deps : Deps) (maxTime : Nat) (address self : String)
    (views : List View) (w : String) (evs : List Event) (A : String)
    (h : pollLoop deps maxTime address self w views = some (evs, A)) :
    ∀ e ∈ evs, e.isPolling = true := by
  induction views generalizing w evs with
  | nil =>
    by_cases hw : w = ""
    · simp [pollLoop, hw] at h
    · simp only [pollLoop, if_neg hw, Option.some.injEq, Prod.mk.injEq] at h
      intro e he
      rw [← h.1] at he
      exact absurd he (List.not_mem_nil e)
  | cons v vs ih =>
    by_cases hw : w = ""
    · simp only [pollLoop, hw, if_true, Option.map_eq_some'] at h
      obtain ⟨r, hr, hr2⟩ := h
      obtain ⟨e1, a1⟩ := r
      simp only [Prod.mk.injEq] at hr2
      obtain ⟨rfl, rfl⟩ := hr2
      intro e he
      rcases List.mem_append.mp he with he | he
      · exact iteration_events_polling deps maxTime address self v e he
      · exact ih _ _ hr e he
    · simp only [pollLoop, if_neg hw, Option.some.injEq, Prod.mk.injEq] at h
      intro e he
      rw [← h.1] at he
      exact absurd he (List.not_mem_nil e)

theorem saveAndGate_send (deps : Deps) (exchangeKey leasedir : String) (fs : FS)
    (before : List Event) (A : String) (hb : ∀ e ∈ before, e.isSend = false) :
    (saveAndGate deps exchangeKey leasedir fs before A).events.filter Event.isSend
      = [.send A] := by
  have hnil : before.filter Event.isSend = [] := by
    apply List.filter_eq_nil_iff.mpr
    intro e he
    rw [hb e he]
    exact Bool.false_ne_true
  unfold saveAndGate
  dsimp only
  split <;> simp [List.filter_append, hnil, List.filter, Event.isSend]

theorem saveAndGate_written (deps : Deps) (exchangeKey leasedir : String) (fs : FS)
    (before : List Event) (A : String) :
    (saveAndGate deps exchangeKey leasedir fs before A).leaseWritten =
      (fs.writeFile (leaseFile deps exchangeKey leasedir) A).isSome := by
  unfold saveAndGate
  dsimp only
  split <;> simp [*]

/-- C5, as stated, fails: the lease file of key "secret" is present but empty,
so `checkDHCPLease` returns "" and the loop is entered.  Without a further
observation the service has not ended; with one in which node "b" is flagged
as leader it polls, elects, calls NextIP and sends "10.1.0.1", not the content
of the file. -/
theorem C5_blank_lease_counterexample :
    fsBlankLease.stat (leaseFile sampleDeps "secret" "leases") = true ∧
    fsBlankLease.readFile (leaseFile sampleDeps "secret" "leases") = some "" ∧
    DHCPNetworkService sampleDeps 900 "leases" "10.1.0.1" "secret" "b" fsBlankLease [] = none ∧
    ∃ out, DHCPNetworkService sampleDeps 900 "leases" "10.1.0.1" "secret" "b" fsBlankLease
        [viewLed] = some out ∧
      (∃ e ∈ out.events, e.isPolling = true) ∧
      Event.nextIP "10.1.0.1" ["10.1.0.2"] ∈ out.events ∧
      out.sent = "10.1.0.1" ∧ out.sent ≠ "" := by
  refine ⟨by decide, by decide, by decide, ?_⟩
  refine ⟨_, rfl, ?_, ?_, ?_, ?_⟩ <;> decide

/-- C5 (amended): when the lease file is present and the content read from it
is not empty, the service adopts that content at once: whatever the ledger and
the liveness view would show, it ends without a single pass of the loop (no
sleep, no liveness or ledger read, no Leader, Persist or NextIP call), sends
exactly the content of the file on the channel and returns the result of the
subnet gate for it. -/
theorem C5_lease_adopted (deps : Deps) (maxTime : Nat) (leasedir address : String)
    (exchangeKey self : String) (fs : FS) (views : List View) (content : String)
    (hstat : fs.stat (leaseFile deps exchangeKey leasedir) = true)
    (hread : fs.readFile (leaseFile deps exchangeKey leasedir) = some content)
    (hne : content ≠ "") :
    checkDHCPLease deps exchangeKey leasedir fs = content ∧
    ∃ out, DHCPNetworkService deps maxTime leasedir address exchangeKey self fs views
        = some out ∧
      out.sent = content ∧
      (∀ e ∈ out.events, e.isPolling = false) ∧
      Event.send content ∈ out.events ∧
      out.ret = deps.BlockSubnet (content ++ "/24") := by
  have _ := hstat
  refine ⟨checkDHCPLease_of_readFile deps exchangeKey leasedir fs content hread, _,
    service_of_lease deps maxTime leasedir address exchangeKey self fs views content hread hne,
    (saveAndGate_sent ..).1, ?_, ?_, (saveAndGate_sent ..).2⟩
  · apply saveAndGate_events
    intro e he
    simp only [List.append_nil, List.mem_cons, List.mem_singleton, List.not_mem_nil,
      or_false] at he
    rcases he with rfl | rfl | rfl <;> rfl
  · unfold saveAndGate
    dsimp only
    split <;> simp

theorem C5_lease_adopted_witness :
    (FS.stat ⟨[("leases/secret-ek", "10.1.0.5")], [], false⟩
        (leaseFile sampleDeps "secret" "leases") = true ∧
      FS.readFile ⟨[("leases/secret-ek", "10.1.0.5")], [], false⟩
        (leaseFile sampleDeps "secret" "leases") = some "10.1.0.5" ∧ "10.1.0.5" ≠ "") ∧
    checkDHCPLease sampleDeps "secret" "leases" ⟨[("leases/secret-ek", "10.1.0.5")], [], false⟩
      = "10.1.0.5" :=
  ⟨by decide,
    (C5_lease_adopted sampleDeps 900 "leases" "10.1.0.1" "secret" "a"
      ⟨[("leases/secret-ek", "10.1.0.5")], [], false⟩ [viewFresh] "10.1.0.5"
      (by decide) (by decide) (by decide)).1⟩

/-- C8: once the loop has ended with an address A (adopted from the lease file
or chosen by NextIP), the service runs to its end whether the write of the
lease file succeeds or fails: it sends exactly A on the channel, once, and
returns exactly the result of BlockSubnet on A followed by "/24", so it returns
an error if and only if the gate does, and then the gate's error. -/
theorem C8_lease_write_not_fatal (deps : Deps) (maxTime : Nat) (leasedir address : String)
    (exchangeKey self : String) (fs : FS) (views : List View) (evs : List Event)
    (A : String)
    (h : pollLoop deps maxTime address self (checkDHCPLease deps exchangeKey leasedir fs)
      views = some (evs, A)) :
    ∃ out, DHCPNetworkService deps maxTime leasedir address exchangeKey self fs views
        = some out ∧
      out.leaseWritten = (fs.writeFile (leaseFile deps exchangeKey leasedir) A).isSome ∧
      out.sent = A ∧
      out.events.filter Event.isSend = [.send A] ∧
      out.ret = deps.BlockSubnet (A ++ "/24") ∧
      (out.ret.isSome = true ↔ (deps.BlockSubnet (A ++ "/24")).isSome = true) ∧
      (∀ err, out.ret = some err ↔ deps.BlockSubnet (A ++ "/24") = some err) := by
  have hout : DHCPNetworkService deps maxTime leasedir address exchangeKey self fs views =
      some (saveAndGate deps exchangeKey leasedir fs
        ((.mkdirAll leasedir 0o600 :: checkDHCPLeaseEvents deps exchangeKey leasedir fs) ++ evs)
        A) := by
    unfold DHCPNetworkService
    rw [h]
  have hsend : ∀ e ∈ (Event.mkdirAll leasedir 0o600 ::
      checkDHCPLeaseEvents deps exchangeKey leasedir fs) ++ evs, e.isSend = false := by
    intro e he
    rcases List.mem_append.mp he with he | he
    · exact start_events_not_send deps exchangeKey leasedir fs e he
    · have hp := pollLoop_events_polling deps maxTime address self views _ evs A h e he
      cases e <;> first | rfl | exact Bool.noConfusion hp
  have hret := (saveAndGate_sent deps exchangeKey leasedir fs
    ((.mkdirAll leasedir 0o600 :: checkDHCPLeaseEvents deps exchangeKey leasedir fs) ++ evs) A)
  refine ⟨_, hout, saveAndGate_written .., hret.1, saveAndGate_send _ _ _ _ _ _ hsend,
    hret.2, by rw [hret.2], fun err => by rw [hret.2]⟩

theorem C8_lease_write_not_fatal_witness :
    pollLoop sampleDeps 900 "10.1.0.1" "b" (checkDHCPLease sampleDeps "secret" "leases" fsReadOnly)
        [viewLed] = some (electEvents 900 viewLed ++ [.nextIP "10.1.0.1" ["10.1.0.2"]],
          "10.1.0.1") ∧
    fsReadOnly.writeFile (leaseFile sampleDeps "secret" "leases") "10.1.0.1" = none ∧
    ∃ out, DHCPNetworkService sampleDeps 900 "leases" "10.1.0.1" "secret" "b" fsReadOnly
        [viewLed] = some out ∧
      out.leaseWritten =
        (fsReadOnly.writeFile (leaseFile sampleDeps "secret" "leases") "10.1.0.1").isSome ∧
      out.sent = "10.1.0.1" ∧
      out.events.filter Event.isSend = [.send "10.1.0.1"] ∧
      out.ret = sampleDeps.BlockSubnet ("10.1.0.1" ++ "/24") ∧
      (out.ret.isSome = true ↔ (sampleDeps.BlockSubnet ("10.1.0.1" ++ "/24")).isSome = true) ∧
      (∀ err, out.ret = some err ↔ sampleDeps.BlockSubnet ("10.1.0.1" ++ "/24") = some err) :=
  ⟨by decide, by decide,
    C8_lease_write_not_fatal sampleDeps 900 "leases" "10.1.0.1" "secret" "b" fsReadOnly
      [viewLed] (electEvents 900 viewLed ++ [.nextIP "10.1.0.1" ["10.1.0.2"]]) "10.1.0.1"
      (by decide)⟩

theorem saveAndGate_fs (deps : Deps) (exchangeKey leasedir : String) (fs : FS)
    (before : List Event) (A : String)
    (hw : (saveAndGate deps exchangeKey leasedir fs before A).leaseWritten = true) :
    fs.writeFile (leaseFile deps exchangeKey leasedir) A =
      some (saveAndGate deps exchangeKey leasedir fs before A).fs := by
  unfold saveAndGate at hw ⊢
  dsimp only at hw ⊢
  split at hw
  · rename_i fs' hfs
    simp [hfs]
  · exact absurd hw Bool.false_ne_true

/-- C6: lease round trip.  After a run of the service that ended with address A
and wrote its lease file without error, the lease file holds exactly A, and
`checkDHCPLease` with the same exchange key and lease directory returns exactly
A on the resulting file system; A is not empty, so a later run on that file
system, whatever it would observe of the ledger, adopts A without a single pass
of the loop. -/
theorem C6_lease_round_trip (deps : Deps) (maxTime : Nat) (leasedir address : String)
    (exchangeKey self : String) (fs : FS) (views : List View) (out : Outcome)
    (h : DHCPNetworkService deps maxTime leasedir address exchangeKey self fs views = some out)
    (hw : out.leaseWritten = true) :
    fs.writeFile (leaseFile deps exchangeKey leasedir) out.sent = some out.fs ∧
    out.fs.readFile (leaseFile deps exchangeKey leasedir) = some out.sent ∧
    checkDHCPLease deps exchangeKey leasedir out.fs = out.sent ∧
    (∀ (maxTime' : Nat) (address' self' : String) (views' : List View),
      ∃ out', DHCPNetworkService deps maxTime' leasedir address' exchangeKey self' out.fs views'
          = some out' ∧
        out'.sent = out.sent ∧ ∀ e ∈ out'.events, e.isPolling = false) := by
  unfold DHCPNetworkService at h
  cases hp : pollLoop deps maxTime address self (checkDHCPLease deps exchangeKey leasedir fs)
      views with
  | none => simp [hp] at h
  | some r =>
    obtain ⟨evs, A⟩ := r
    simp only [hp, Option.some.injEq] at h
    subst h
    have hA : A ≠ "" := pollLoop_result_ne_empty deps maxTime address self views _ evs A hp
    have hsent := (saveAndGate_sent deps exchangeKey leasedir fs
      ((.mkdirAll leasedir 0o600 :: checkDHCPLeaseEvents deps exchangeKey leasedir fs) ++ evs)
      A).1
    have hfs := saveAndGate_fs deps exchangeKey leasedir fs _ A hw
    have hread := readFile_writeFile fs _ _ A hfs
    rw [hsent]
    refine ⟨hfs, hread, checkDHCPLease_of_readFile deps exchangeKey leasedir _ A hread, ?_⟩
    intro maxTime' address' self' views'
    refine ⟨_, service_of_lease deps maxTime' leasedir address' exchangeKey self' _ views' A
      hread hA, (saveAndGate_sent ..).1, ?_⟩
    apply saveAndGate_events
    intro e he
    simp only [List.append_nil, List.mem_cons, List.mem_singleton, List.not_mem_nil,
      or_false] at he
    rcases he with rfl | rfl | rfl <;> rfl

theorem C6_lease_round_trip_witness :
    (DHCPNetworkService (depsWith "10.1.0.5") 900 "leases" "10.1.0.1" "secret" "b" fsEmpty
        [viewLed] = some lease5 ∧ lease5.leaseWritten = true ∧ lease5.sent = "10.1.0.5") ∧
    checkDHCPLease (depsWith "10.1.0.5") "secret" "leases" lease5.fs = lease5.sent :=
  ⟨by decide,
    (C6_lease_round_trip (depsWith "10.1.0.5") 900 "leases" "10.1.0.1" "secret" "b" fsEmpty
      [viewLed] lease5 (by decide) (by decide)).2.2.1⟩

/-! ## Theorems: the sealer -/

namespace AESSealer

theorem hexValue_hexDigit : ∀ d : Fin 16, hexValue (hexDigit d) = some d := by decide

theorem byte_xor_cancel (a k : Byte) : (a ^^^ k) ^^^ k = a := by
  apply Fin.ext
  show ((a.val ^^^ k.val) % 256 ^^^ k.val) % 256 = a.val
  have h1 : a.val ^^^ k.val < 256 := Nat.xor_lt_two_pow (n := 8) a.isLt k.isLt
  rw [Nat.mod_eq_of_lt h1, Nat.xor_assoc, Nat.xor_self, Nat.xor_zero]
  exact Nat.mod_eq_of_lt a.isLt

theorem xorFrom_xorFrom (ks : Nat → Byte) (i : Nat) (l : List Byte) :
    xorFrom ks i (xorFrom ks i l) = l := by
  induction l generalizing i with
  | nil => rfl
  | cons b bs ih => simp [xorFrom, byte_xor_cancel, ih]

theorem length_xorFrom (ks : Nat → Byte) (i : Nat) (l : List Byte) :
    (xorFrom ks i l).length = l.length := by
  induction l generalizing i with
  | nil => rfl
  | cons b bs ih => simp [xorFrom, ih]

theorem decodeHexChars_hexChars (l : List Byte) : decodeHexChars (hexChars l) = some l := by
  induction l with
  | nil => rfl
  | cons b bs ih =>
    simp only [hexChars, decodeHexChars, hexValue_hexDigit, ih]
    congr 2
    apply Fin.ext
    show b.val / 16 * 16 + b.val % 16 = b.val
    omega

theorem decodeHex_encodeHex (l : List Byte) : decodeHex (encodeHex l) = some l :=
  decodeHexChars_hexChars l

theorem length_hexChars (l : List Byte) : (hexChars l).length = 2 * l.length := by
  induction l with
  | nil => rfl
  | cons b bs ih => simp only [hexChars, List.length_cons, ih]; omega

/-- C9: sealer round trip.  For every cipher primitive, plaintext and key, and
whatever randomness the call draws, Seal succeeds, and Unseal of the token it
produced, under the same key, succeeds and returns the plaintext. -/
theorem C9_seal_unseal_round_trip (c : Cipher) (rnd : Nat → Byte) (message key : List Byte) :
    ∃ token, Seal c rnd message key = .ok token ∧ Unseal c token key = .ok message := by
  refine ⟨_, rfl, ?_⟩
  unfold Unseal
  rw [decodeHex_encodeHex]
  have hn : (List.ofFn (fun i : Fin nonceSize => rnd i.val)).length = nonceSize :=
    List.length_ofFn _
  simp only [List.length_append, List.length_ofFn, length_xorFrom]
  rw [if_neg (by unfold tagSize nonceSize; omega)]
  rw [List.take_left' hn, List.drop_left' hn]
  simp only [List.length_append, List.length_ofFn, length_xorFrom]
  have ht : message.length + 16 - tagSize = message.length := by unfold tagSize; omega
  rw [ht]
  have hc : (xorFrom (c.keystream key (List.ofFn (fun i : Fin nonceSize => rnd i.val))) 0
      message).length = message.length := length_xorFrom _ _ _
  rw [List.take_left' hc, List.drop_left' hc, if_pos rfl, xorFrom_xorFrom]

/-- The message "foo" sealed twice under a 32-character key, with two different
draws of the nonce: the tokens differ, both are 62 characters long and both
unseal to "foo". -/
theorem seal_foo_twice :
    ∃ t1 t2, Seal sampleCipher (fun _ => 1) foo key32 = .ok t1 ∧
      Seal sampleCipher (fun i => Fin.ofNat i) foo key32 = .ok t2 ∧
      t1 ≠ t2 ∧ t1.length = 62 ∧ t2.length = 62 ∧
      Unseal sampleCipher t1 key32 = .ok foo ∧ Unseal sampleCipher t2 key32 = .ok foo := by
  refine ⟨_, _, rfl, rfl, ?_, ?_, ?_, ?_, ?_⟩
  · decide
  · decide
  · decide
  · rfl
  · rfl

end AESSealer

end EdgeVPN
